import Mathlib

/-!
Shallow embedding of the inline-queries manager
(`src/td/telegram/InlineQueriesManager.cpp`): the reference-counted TTL
result cache with its release/eviction protocol, the single-flight
debounced dispatcher, the request fingerprint, the recently-used-bots
list with its persistence round trip, and the inline-message-id codec.

Modelling conventions:
* `double` timestamps are modelled as rationals; machine integers as
  `Nat`/`Int` with explicit `% 2 ^ w` where overflow matters.
* `CHECK(...)` failures (fatal assertions) are modelled by returning
  `none` from an `Option`-valued function.
* Promise completions, remote calls and cancellations are emitted as an
  explicit event list, since the callbacks themselves live outside this
  translation unit.
-/

set_option linter.unusedVariables false

/-- Embedding of the stored `td_api::inlineQueryResults` object (the value
cached per fingerprint).  Individual result items are abstracted to
identifiers; their conversion from wire payloads is out of scope. -/
structure ResultSet where
  query_id : Int
  result_items : List Nat
  switch_pm_text : String
  switch_pm_parameter : String
deriving DecidableEq

/-- Embedding of the per-fingerprint cache entry of
`InlineQueriesManager::inline_query_results_`: optional stored result,
expiry timestamp (`-1` when unknown/absent) and the pending refcount. -/
structure CacheEntry where
  results : Option ResultSet
  cache_expire_time : ℚ
  pending_request_count : ℤ
deriving DecidableEq

/-- Embedding of `InlineQueriesManager::PendingInlineQuery` (the
single-flight slot content).  The completion promise is identified by a
numeric handle so that completions can be reported as events. -/
structure PendingInlineQuery where
  query_hash : Nat
  bot_user_id : Nat
  query : String
  off_set : String
  promise : Nat
deriving DecidableEq

/-- The mutable state of the manager relevant to the cache, the
dispatcher and the eviction timers.  `sent_query` holds the identity of
the in-flight remote call (the promise handle moved into its result
handler); `drop_inline_query_result_timeout` is the per-fingerprint
eviction timer (`MultiTimeout`); `loop_timeout` is the actor wake-up
timer used by the scheduling step. -/
structure IQMState where
  inline_query_results : Nat → Option CacheEntry
  pending_inline_query : Option PendingInlineQuery
  sent_query : Option Nat
  next_inline_query_time : ℚ
  drop_inline_query_result_timeout : Nat → Option ℚ
  loop_timeout : Option ℚ

/-- Pointwise update of the cache map (insert with `some`, erase with
`none`). -/
def setEntry (m : Nat → Option CacheEntry) (k : Nat) (v : Option CacheEntry) :
    Nat → Option CacheEntry :=
  fun k' => if k' = k then v else m k'

/-- Arming of the per-fingerprint eviction timer
(`drop_inline_query_result_timeout_.set_timeout_at`). -/
def setDropTimeout (m : Nat → Option ℚ) (k : Nat) (t : ℚ) : Nat → Option ℚ :=
  fun k' => if k' = k then some t else m k'

/-- Result of the release operation: the stored object either moved out
(line 1146, no copy produced) or deep-copied (line 1153). -/
inductive ReleaseOutcome where
  | moved (r : Option ResultSet)
  | copied (r : Option ResultSet)
deriving DecidableEq

/-- Externally observable actions emitted by the manager: promise
completions, issuing the remote `GetInlineBotResultsQuery`, and
cancelling the in-flight query. -/
inductive Event where
  | promise_value (p : Nat)
  | promise_error (p : Nat) (code : Nat)
  | send_remote (p : Nat) (query_hash : Nat)
  | cancel_sent (q : Nat)
deriving DecidableEq

/-- Embedding of `InlineQueriesManager::decrease_pending_request_count`
(lines 1135-1154).  `none` models the two `CHECK` failures (missing
entry, non-positive refcount).  On reaching refcount zero the entry is
erased and the original moved out when `cache_expire_time - now < 0`;
otherwise the eviction timer is armed at `cache_expire_time` and a deep
copy is returned. -/
def decrease_pending_request_count (now : ℚ) (query_hash : Nat) (s : IQMState) :
    Option (ReleaseOutcome × IQMState) :=
  match s.inline_query_results query_hash with
  | none => none
  | some e =>
    if e.pending_request_count ≤ 0 then none
    else
      let e' : CacheEntry :=
        { e with pending_request_count := e.pending_request_count - 1 }
      if e'.pending_request_count = 0 then
        if e'.cache_expire_time - now < 0 then
          some (ReleaseOutcome.moved e'.results,
            { s with inline_query_results := setEntry s.inline_query_results query_hash none })
        else
          some (ReleaseOutcome.copied e'.results,
            { s with
                inline_query_results := setEntry s.inline_query_results query_hash (some e'),
                drop_inline_query_result_timeout :=
                  setDropTimeout s.drop_inline_query_result_timeout query_hash
                    e'.cache_expire_time })
      else
        some (ReleaseOutcome.copied e'.results,
          { s with inline_query_results := setEntry s.inline_query_results query_hash (some e') })

/-- Embedding of
`InlineQueriesManager::on_drop_inline_query_result_timeout_callback`
(lines 163-173).  The three `CHECK`s (entry exists, stored results
non-null, non-negative refcount) are modelled as `none`; the entry is
erased exactly when the refcount is zero, and the callback is a no-op
when the refcount is positive. -/
def on_drop_inline_query_result_timeout_callback (query_hash : Nat) (s : IQMState) :
    Option IQMState :=
  match s.inline_query_results query_hash with
  | none => none
  | some e =>
    match e.results with
    | none => none
    | some _ =>
      if e.pending_request_count < 0 then none
      else if e.pending_request_count = 0 then
        some { s with inline_query_results := setEntry s.inline_query_results query_hash none }
      else
        some s

/-- Embedding of `InlineQueriesManager::on_get_inline_query_results`
(lines 1171-1616).  A `none` result (error or cancellation) runs
`decrease_pending_request_count` and discards its return value (line
1175).  A present result is converted (conversion of the individual
items is out of scope and abstracted by the given payload) and stored
into the matching entry together with the expiry
`now + cache_time` (lines 1601-1615); a missing entry there is a
`CHECK` failure. -/
def on_get_inline_query_results (now : ℚ) (query_hash : Nat)
    (results : Option (ℚ × ResultSet)) (s : IQMState) : Option IQMState :=
  match results with
  | none => (decrease_pending_request_count now query_hash s).map (fun r => r.2)
  | some (cache_time, payload) =>
    match s.inline_query_results query_hash with
    | none => none
    | some e =>
      some { s with
        inline_query_results := setEntry s.inline_query_results query_hash
          (some { e with results := some payload, cache_expire_time := now + cache_time }) }

/-- Modelled from the spec: `DISPATCH_INTERVAL` — the constant
`INLINE_QUERY_DELAY_MS` is declared in `InlineQueriesManager.h`, which
is not among the sources; the spec fixes it only as a positive minimum
spacing in milliseconds.  Its exact value is irrelevant to every claim
below. -/
def INLINE_QUERY_DELAY_MS : ℚ := 400

/-- Embedding of `InlineQueriesManager::loop` (lines 896-927): the
re-entrant scheduling step.  `input_user_ok` abstracts whether
`get_input_user` can construct an input user for a bot.  When the slot
is occupied and the debounce time has passed and the input user exists,
the in-flight call (if any) is cancelled, the remote call is issued,
the debounce deadline advances by `INLINE_QUERY_DELAY_MS * 1e-3`, and
the slot is cleared; when no input user exists the slot is cleared with
no other effect; before the deadline a wake-up timer is armed if none
is. -/
def loop (now : ℚ) (input_user_ok : Nat → Bool) (s : IQMState) :
    IQMState × List Event :=
  match s.pending_inline_query with
  | none => (s, [])
  | some p =>
    if s.next_inline_query_time ≤ now then
      if input_user_ok p.bot_user_id then
        ({ s with
            sent_query := some p.promise,
            next_inline_query_time := now + INLINE_QUERY_DELAY_MS * (1 / 1000),
            pending_inline_query := none },
          (match s.sent_query with
           | some q => [Event.cancel_sent q]
           | none => []) ++ [Event.send_remote p.promise p.query_hash])
      else
        ({ s with pending_inline_query := none }, [])
    else
      if s.loop_timeout = none then
        ({ s with loop_timeout := some s.next_inline_query_time }, [])
      else
        (s, [])

/-- Embedding of lines 882-891 of `send_inline_query`: drop a queued
query (running the response path with an empty result and failing its
promise with error 406), store the new request in the single-flight
slot, and run the scheduling step. -/
def storePendingInlineQuery (now : ℚ) (input_user_ok : Nat → Bool)
    (req : PendingInlineQuery) (s : IQMState) : Option (IQMState × List Event) :=
  match s.pending_inline_query with
  | some old =>
    match on_get_inline_query_results now old.query_hash none s with
    | none => none
    | some s₂ =>
      let s₃ := { s₂ with pending_inline_query := some req }
      let r := loop now input_user_ok s₃
      some (r.1, Event.promise_error old.promise 406 :: r.2)
  | none =>
    let s₃ := { s with pending_inline_query := some req }
    let r := loop now input_user_ok s₃
    some (r.1, r.2)

/-- Embedding of `InlineQueriesManager::send_inline_query` after its
validation guards and fingerprint computation (lines 871-894):
admission into the cache (increment on hit, creation with refcount 1 on
miss), immediate completion on a fresh hit, and otherwise supersession
of the queued request plus the scheduling step.  `req.query_hash` is
the fingerprint of the request. -/
def send_inline_query (now : ℚ) (input_user_ok : Nat → Bool)
    (req : PendingInlineQuery) (s : IQMState) : Option (IQMState × List Event) :=
  match s.inline_query_results req.query_hash with
  | some e =>
    let s₁ : IQMState :=
      { s with
          inline_query_results := setEntry s.inline_query_results req.query_hash
            (some { e with pending_request_count := e.pending_request_count + 1 }) }
    if now < e.cache_expire_time then
      some (s₁, [Event.promise_value req.promise])
    else
      storePendingInlineQuery now input_user_ok req s₁
  | none =>
    let s₁ : IQMState :=
      { s with
          inline_query_results := setEntry s.inline_query_results req.query_hash
            (some { results := none, cache_expire_time := -1, pending_request_count := 1 }) }
    storePendingInlineQuery now input_user_ok req s₁

/-- A dispatcher state whose queued request (if any) can be superseded
without touching the fingerprint `qh`: the queued request targets a
different fingerprint whose entry exists with a positive refcount (the
bookkeeping invariant of a queued request). -/
def SupersedableAway (qh : Nat) (s : IQMState) : Prop :=
  s.pending_inline_query = none ∨
    ∃ old eo, s.pending_inline_query = some old ∧ old.query_hash ≠ qh ∧
      s.inline_query_results old.query_hash = some eo ∧ 0 < eo.pending_request_count

/-- Fixed multiplier of the fingerprint accumulator (line 863). -/
def KMULT : Nat := 2023654985

/-- The width of the `uint64` accumulator. -/
def U64 : Nat := 2 ^ 64

/-- One combining step of the fingerprint: `h = h * K + field_hash` on a
64-bit accumulator. -/
def hashStep (h f : Nat) : Nat := (h * KMULT + f) % U64

/-- Embedding of the fingerprint computation of `send_inline_query`
(lines 862-869).  `hstr` abstracts `std::hash<std::string>` (external);
`lat_q` and `lon_q` are the raw 64-bit values of
`static_cast<uint64>(latitude * 1e4)` and the same for the longitude
(the floating-point cast itself is outside the embedding). -/
def send_inline_query_hash (hstr : String → Nat) (query : String) (bot_user_id : Nat)
    (off_set : String) (need_location : Bool) (lat_q lon_q : Nat) : Nat :=
  let h0 := hstr query.trim % U64
  let h1 := hashStep h0 bot_user_id
  let h2 := hashStep h1 (hstr off_set)
  let h3 := if need_location then hashStep (hashStep h2 lat_q) lon_q else h2
  h3 &&& 0x7FFFFFFFFFFFFFFF

/-- The fingerprint as the specification words it: start from a hash of
the trimmed text, fold `h = h * K + field_hash` over the fields in
order (provider id, offset hash, then the quantized location when the
provider needs one), and clear the top bit at the end. -/
def fingerprint_spec (hstr : String → Nat) (query : String) (bot_user_id : Nat)
    (off_set : String) (need_location : Bool) (lat_q lon_q : Nat) : Nat :=
  (([bot_user_id, hstr off_set] ++ if need_location then [lat_q, lon_q] else []).foldl
      hashStep (hstr query.trim % U64)) &&& (2 ^ 63 - 1)

/-- Move the element at index `i` to the front:
`std::rotate(begin, it, it + 1)` of line 1781. -/
def rotateToFront (i : Nat) (l : List Nat) : List Nat :=
  (l.drop i).take 1 ++ l.take i ++ l.drop (i + 1)

/-- Embedding of `InlineQueriesManager::update_bot_usage`
(lines 1756-1783).  `valid` merges the guards of lines 1757-1769
(valid user id, bot data available, non-empty username, inline-capable);
their outcome does not depend on their order relative to the front
check.  `N` is `MAX_RECENT_INLINE_BOTS` (declared in the header, not
among the sources). -/
def update_bot_usage (valid : Nat → Bool) (N : Nat) (bot_user_id : Nat) (l : List Nat) :
    Bool × List Nat :=
  if !valid bot_user_id then (false, l)
  else if l.head? = some bot_user_id then (false, l)
  else
    match l.findIdx? (fun x => x == bot_user_id) with
    | some i => (true, rotateToFront i l)
    | none =>
      let l' := if l.length = N then l.dropLast ++ [bot_user_id] else l ++ [bot_user_id]
      (true, rotateToFront (l'.length - 1) l')

/-- Embedding of `InlineQueriesManager::remove_recent_inline_bot`
(lines 1785-1792): erase the first occurrence, if present. -/
def remove_recent_inline_bot (bot_user_id : Nat) (l : List Nat) : List Nat :=
  l.erase bot_user_id

/-- An operation on the recently-used-bots list, for properties about
arbitrary operation sequences. -/
inductive RecentOp where
  | useBot (id : Nat)
  | removeBot (id : Nat)

/-- Apply one recent-bots operation. -/
def applyRecentOp (valid : Nat → Bool) (N : Nat) (l : List Nat) : RecentOp → List Nat
  | RecentOp.useBot id => (update_bot_usage valid N id l).2
  | RecentOp.removeBot id => remove_recent_inline_bot id l

/-- Decimal digits of `n`, most significant first, as characters — the
serialization `to_string(bot_user_id.get())` of line 1640. -/
def natToChars (n : Nat) : List Char :=
  if n = 0 then ['0'] else ((Nat.digits 10 n).reverse).map Nat.digitChar

/-- Decimal parse, the `to_integer<int32>` of line 1678 restricted to
the digit strings this module writes (no sign, no overflow). -/
def charsToNat (l : List Char) : Nat :=
  l.foldl (fun a c => a * 10 + (c.toNat - 48)) 0

/-- Comma-join of lines 1634-1641: pieces separated by single commas,
no escaping. -/
def join_comma (ls : List (List Char)) : List Char := [','].intercalate ls

/-- Embedding of `td::full_split(value, ',')` (line 1652): an empty
string yields no pieces, otherwise split at every comma, keeping empty
pieces. -/
def full_split (l : List Char) : List (List Char) :=
  if l = [] then [] else l.splitOn ','

/-- Embedding of `InlineQueriesManager::save_recently_used_bots`
(lines 1627-1644): the two parallel comma-joined strings (usernames and
ids), front to back.  `uname` abstracts
`contacts_manager->get_user_username`. -/
def save_recently_used_bots (uname : Nat → List Char) (l : List Nat) :
    List Char × List Char :=
  (join_comma (l.map uname), join_comma (l.map natToChars))

/-- Embedding of the id-based branch of
`InlineQueriesManager::load_recently_used_bots` (lines 1676-1688 with
no newly-used bots): parse the comma-split id list and replay
`update_bot_usage` in reverse order into an empty list.  Skipping of
unknown users (line 1679) coincides with the no-op of
`update_bot_usage` on ids rejected by `valid`. -/
def load_recently_used_bots (valid : Nat → Bool) (N : Nat) (value_ids : List Char) :
    List Nat :=
  (((full_split value_ids).map charsToNat).reverse).foldl
    (fun acc id => (update_bot_usage valid N id acc).2) []

/-- Little-endian byte encoding on `k` bytes, the TL storage of `int32`
and `int64` fields. -/
def leBytes : Nat → Nat → List Nat
  | 0, _ => []
  | k + 1, n => n % 256 :: leBytes k (n / 256)

/-- Little-endian byte decoding. -/
def fromLeBytes : List Nat → Nat
  | [] => 0
  | b :: t => b + 256 * fromLeBytes t

/-- Embedding of `telegram_api::inputBotInlineMessageID`: a TL object
with fields `dc_id : int32`, `id : int64`, `access_hash : int64`, kept
here as their raw bit patterns. -/
structure inputBotInlineMessageID where
  dc_id : Nat
  id : Nat
  access_hash : Nat
deriving DecidableEq

/-- Modelled from the spec: the external protocol codec
(`serialize(*input_bot_inline_message_id)` of line 209).  The generated
TL storer writes the three fields back to back, little endian, with no
constructor tag: 4 + 8 + 8 = 20 bytes. -/
def serializeInlineMessageID (m : inputBotInlineMessageID) : List Nat :=
  leBytes 4 m.dc_id ++ leBytes 8 m.id ++ leBytes 8 m.access_hash

/-- Modelled from the spec: the external protocol codec
(`inputBotInlineMessageID::fetch` plus `parser.fetch_end()` of
lines 188-194).  Parsing succeeds exactly on 20-byte inputs (shorter
inputs fail a field fetch, longer ones fail `fetch_end`). -/
def fetchInlineMessageID (bytes : List Nat) : Option inputBotInlineMessageID :=
  if bytes.length = 20 then
    some { dc_id := fromLeBytes (bytes.take 4),
           id := fromLeBytes ((bytes.drop 4).take 8),
           access_hash := fromLeBytes (bytes.drop 12) }
  else none

/-- The base64url alphabet. -/
def b64Chars : List Char :=
  ['A', 'B', 'C', 'D', 'E', 'F', 'G', 'H', 'I', 'J', 'K', 'L', 'M',
   'N', 'O', 'P', 'Q', 'R', 'S', 'T', 'U', 'V', 'W', 'X', 'Y', 'Z',
   'a', 'b', 'c', 'd', 'e', 'f', 'g', 'h', 'i', 'j', 'k', 'l', 'm',
   'n', 'o', 'p', 'q', 'r', 's', 't', 'u', 'v', 'w', 'x', 'y', 'z',
   '0', '1', '2', '3', '4', '5', '6', '7', '8', '9', '-', '_']

/-- The character for a sextet value. -/
def encSextet (n : Nat) : Char := b64Chars.getD n 'A'

/-- The sextet value of a character; `none` for a character outside the
alphabet. -/
def decSextet (c : Char) : Option Nat := b64Chars.findIdx? (fun x => x == c)

/-- Modelled from the spec: the external `td::base64url_encode`
(line 209) — unpadded base64url. -/
def base64url_encode : List Nat → List Char
  | a :: b :: c :: rest =>
    encSextet (a / 4) :: encSextet (a % 4 * 16 + b / 16) ::
      encSextet (b % 16 * 4 + c / 64) :: encSextet (c % 64) :: base64url_encode rest
  | [a, b] => [encSextet (a / 4), encSextet (a % 4 * 16 + b / 16), encSextet (b % 16 * 4)]
  | [a] => [encSextet (a / 4), encSextet (a % 4 * 16)]
  | [] => []

/-- Modelled from the spec: the external `td::base64url_decode`
(line 184) — rejects a length of `4k + 1`, characters outside the
alphabet, and non-zero trailing padding bits. -/
def base64url_decode : List Char → Option (List Nat)
  | [] => some []
  | [_] => none
  | [c0, c1] =>
    match decSextet c0, decSextet c1 with
    | some v0, some v1 => if v1 % 16 = 0 then some [v0 * 4 + v1 / 16] else none
    | _, _ => none
  | [c0, c1, c2] =>
    match decSextet c0, decSextet c1, decSextet c2 with
    | some v0, some v1, some v2 =>
      if v2 % 4 = 0 then some [v0 * 4 + v1 / 16, v1 % 16 * 16 + v2 / 4] else none
    | _, _, _ => none
  | c0 :: c1 :: c2 :: c3 :: rest =>
    match decSextet c0, decSextet c1, decSextet c2, decSextet c3 with
    | some v0, some v1, some v2, some v3 =>
      match base64url_decode rest with
      | some bs =>
        some ((v0 * 4 + v1 / 16) :: (v1 % 16 * 16 + v2 / 4) :: (v2 % 4 * 64 + v3) :: bs)
      | none => none
    | _, _, _, _ => none

/-- Embedding of `InlineQueriesManager::get_inline_message_id`
(lines 202-210): empty string for a null object, otherwise the
base64url encoding of the TL serialization. -/
def get_inline_message_id (m : Option inputBotInlineMessageID) : List Char :=
  match m with
  | none => []
  | some x => base64url_encode (serializeInlineMessageID x)

/-- Embedding of `InlineQueriesManager::get_input_bot_inline_message_id`
(lines 182-200): base64url decode, TL parse, then the DC-id validity
check.  `is_valid_dc_id` abstracts `DcId::is_valid` (declared outside
the sources), applied to the raw 32-bit field. -/
def get_input_bot_inline_message_id (is_valid_dc_id : Nat → Bool) (s : List Char) :
    Option inputBotInlineMessageID :=
  match base64url_decode s with
  | none => none
  | some bytes =>
    match fetchInlineMessageID bytes with
    | none => none
    | some m => if is_valid_dc_id m.dc_id then some m else none

/-! Helper lemmas about the recently-used-bots list. -/

theorem rotateToFront_length {i : Nat} {l : List Nat} (h : i < l.length) :
    (rotateToFront i l).length = l.length := by
  simp only [rotateToFront, List.length_append, List.length_take, List.length_drop]
  omega

theorem drop_append_singleton (l : List Nat) (x : Nat) : (l ++ [x]).drop l.length = [x] :=
  List.drop_left l [x]

theorem take_append_singleton (l : List Nat) (x : Nat) : (l ++ [x]).take l.length = l :=
  List.take_left l [x]

theorem rotateToFront_append (l : List Nat) (x : Nat) :
    rotateToFront l.length (l ++ [x]) = x :: l := by
  have h1 : (l ++ [x]).drop (l.length + 1) = [] := by
    apply List.drop_eq_nil_of_le
    simp
  simp [rotateToFront, drop_append_singleton, take_append_singleton, h1]

theorem not_mem_of_findIdx?_eq_none {l : List Nat} {id : Nat}
    (h : l.findIdx? (fun x => x == id) = none) : id ∉ l := by
  intro hm
  have := List.findIdx?_eq_none_iff.mp h id hm
  simp at this

theorem findIdx?_lt_length {l : List Nat} {id : Nat} {i : Nat}
    (h : l.findIdx? (fun x => x == id) = some i) : i < l.length := by
  obtain ⟨hlt, -, -⟩ := List.findIdx?_eq_some_iff_getElem.mp h
  exact hlt

/-- Core step of the load replay: using an absent id on a list with
room appends it and rotates it to the front. -/
theorem update_bot_usage_absent_room {valid : Nat → Bool} {N id : Nat} {l : List Nat}
    (hv : valid id = true) (hm : id ∉ l) (hlen : l.length < N) :
    update_bot_usage valid N id l = (true, id :: l) := by
  have hhead : l.head? ≠ some id := by
    cases l with
    | nil => simp
    | cons a t =>
      simp only [List.head?_cons, ne_eq, Option.some.injEq]
      intro h
      exact hm (h ▸ List.mem_cons_self a t)
  have hfind : l.findIdx? (fun x => x == id) = none := by
    rw [List.findIdx?_eq_none_iff]
    intro x hx
    simp only [beq_eq_false_iff_ne, ne_eq]
    intro h
    exact hm (h ▸ hx)
  have hne : l.length ≠ N := Nat.ne_of_lt hlen
  have hL : (l ++ [id]).length - 1 = l.length := by simp
  simp only [update_bot_usage, hv, Bool.not_true, Bool.false_eq_true, if_false, hhead,
    hfind, hne, ite_false, hL, rotateToFront_append]

theorem update_bot_usage_length_le {valid : Nat → Bool} {N id : Nat} {l : List Nat}
    (hN : 0 < N) (h : l.length ≤ N) :
    ((update_bot_usage valid N id l).2).length ≤ N := by
  cases hv : valid id with
  | false => simpa [update_bot_usage, hv] using h
  | true =>
    by_cases hh : l.head? = some id
    · simpa [update_bot_usage, hv, hh] using h
    · cases hfind : l.findIdx? (fun x => x == id) with
      | some i =>
        have hi := findIdx?_lt_length hfind
        simpa [update_bot_usage, hv, hh, hfind, rotateToFront_length hi] using h
      | none =>
        by_cases hlen : l.length = N
        · have hnil : l ≠ [] := by
            intro hl
            subst hl
            simp at hlen
            omega
          have hlen' : (l.dropLast ++ [id]).length = N := by
            have : 0 < l.length := List.length_pos.mpr hnil
            simp only [List.length_append, List.length_dropLast, List.length_cons,
              List.length_nil]
            omega
          have hrot : ((l.dropLast ++ [id]).length - 1) < (l.dropLast ++ [id]).length := by
            simp
          simp only [update_bot_usage, hv, Bool.not_true, Bool.false_eq_true, if_false,
            hh, hfind, hlen, ite_true]
          rw [rotateToFront_length hrot, hlen']
        · have hlt : l.length < N := lt_of_le_of_ne h hlen
          have hrot : ((l ++ [id]).length - 1) < (l ++ [id]).length := by
            simp
          simp only [update_bot_usage, hv, Bool.not_true, Bool.false_eq_true, if_false,
            hh, hfind, hlen, ite_false]
          rw [rotateToFront_length hrot]
          simp only [List.length_append, List.length_cons, List.length_nil]
          omega

theorem update_bot_usage_length_of_mem {valid : Nat → Bool} {N id : Nat} {l : List Nat}
    (h : id ∈ l) :
    ((update_bot_usage valid N id l).2).length = l.length := by
  cases hv : valid id with
  | false => simp [update_bot_usage, hv]
  | true =>
    by_cases hh : l.head? = some id
    · simp [update_bot_usage, hv, hh]
    · cases hfind : l.findIdx? (fun x => x == id) with
      | some i =>
        have hi := findIdx?_lt_length hfind
        simp [update_bot_usage, hv, hh, hfind, rotateToFront_length hi]
      | none => exact absurd h (not_mem_of_findIdx?_eq_none hfind)

theorem applyRecentOp_length_le {valid : Nat → Bool} {N : Nat} {l : List Nat}
    (hN : 0 < N) (h : l.length ≤ N) (op : RecentOp) :
    (applyRecentOp valid N l op).length ≤ N := by
  cases op with
  | useBot id => exact update_bot_usage_length_le hN h
  | removeBot id =>
    calc (remove_recent_inline_bot id l).length ≤ l.length := List.length_erase_le id l
    _ ≤ N := h

theorem foldl_applyRecentOp_length_le {valid : Nat → Bool} {N : Nat}
    (hN : 0 < N) (ops : List RecentOp) :
    ∀ l : List Nat, l.length ≤ N → (ops.foldl (applyRecentOp valid N) l).length ≤ N := by
  induction ops with
  | nil => intro l h; simpa using h
  | cons op rest ih =>
    intro l h
    simpa using ih (applyRecentOp valid N l op) (applyRecentOp_length_le hN h op)

/-! Helper lemmas about the decimal persistence of the bot list. -/

theorem digitChar_toNat_sub (d : Nat) (hd : d < 10) : (Nat.digitChar d).toNat - 48 = d := by
  interval_cases d <;> rfl

theorem digitChar_ne_comma (d : Nat) (hd : d < 10) : Nat.digitChar d ≠ ',' := by
  interval_cases d <;> decide

theorem natToChars_ne_nil (n : Nat) : natToChars n ≠ [] := by
  by_cases h : n = 0
  · simp [natToChars, h]
  · have : Nat.digits 10 n ≠ [] := Nat.digits_ne_nil_iff_ne_zero.mpr h
    simp [natToChars, h, this]

theorem comma_not_mem_natToChars (n : Nat) : ',' ∉ natToChars n := by
  by_cases h : n = 0
  · simp [natToChars, h]
  · simp only [natToChars, h, ite_false, List.mem_map, List.mem_reverse]
    rintro ⟨d, hd, hdc⟩
    exact digitChar_ne_comma d (Nat.digits_lt_base (by norm_num) hd) hdc

theorem charsToNat_digits (ds : List Nat) (hds : ∀ d ∈ ds, d < 10) :
    ∀ a : Nat,
      List.foldl (fun a c => a * 10 + (c.toNat - 48)) a ((ds.reverse).map Nat.digitChar) =
        Nat.ofDigits 10 ds + a * 10 ^ ds.length := by
  induction ds with
  | nil =>
    intro a
    simp [Nat.ofDigits_nil]
  | cons d t ih =>
    intro a
    have hd : d < 10 := hds d (List.mem_cons_self d t)
    have ht : ∀ x ∈ t, x < 10 := fun x hx => hds x (List.mem_cons_of_mem d hx)
    rw [List.reverse_cons, List.map_append, List.foldl_append, ih ht a]
    simp only [List.map_cons, List.map_nil, List.foldl_cons, List.foldl_nil,
      digitChar_toNat_sub d hd, Nat.ofDigits_cons, List.length_cons]
    ring

theorem charsToNat_natToChars (n : Nat) : charsToNat (natToChars n) = n := by
  by_cases h : n = 0
  · simp [charsToNat, natToChars, h]
  · have hds : ∀ d ∈ Nat.digits 10 n, d < 10 := fun d hd =>
      Nat.digits_lt_base (by norm_num) hd
    rw [natToChars, if_neg h, charsToNat, charsToNat_digits (Nat.digits 10 n) hds 0]
    simpa using Nat.ofDigits_digits 10 n

theorem join_comma_ne_nil (p : List Char) (ps : List (List Char)) (hp : p ≠ []) :
    join_comma (p :: ps) ≠ [] := by
  cases ps with
  | nil => simpa [join_comma, List.intercalate] using hp
  | cons q t => simp [join_comma, List.intercalate]

theorem full_split_join (ps : List (List Char)) (hne : ps ≠ [])
    (hnc : ∀ p ∈ ps, ',' ∉ p) (hhd : ∀ p ∈ ps, p ≠ []) :
    full_split (join_comma ps) = ps := by
  cases ps with
  | nil => exact absurd rfl hne
  | cons p t =>
    have hj := join_comma_ne_nil p t (hhd p (List.mem_cons_self p t))
    rw [full_split, if_neg hj]
    exact List.splitOn_intercalate (p :: t) ',' hnc hne

theorem load_replay (valid : Nat → Bool) (N : Nat) :
    ∀ l : List Nat, l.Nodup → l.length ≤ N → (∀ id ∈ l, valid id = true) →
      (l.reverse).foldl (fun acc id => (update_bot_usage valid N id acc).2) [] = l := by
  intro l
  induction l with
  | nil => intro _ _ _; rfl
  | cons id rest ih =>
    intro hnd hlen hv
    have hnd' : rest.Nodup := (List.nodup_cons.mp hnd).2
    have hmem : id ∉ rest := (List.nodup_cons.mp hnd).1
    have hlen' : rest.length ≤ N := by
      simp only [List.length_cons] at hlen
      omega
    have hlt : rest.length < N := by
      simp only [List.length_cons] at hlen
      omega
    have hv' : ∀ x ∈ rest, valid x = true := fun x hx => hv x (List.mem_cons_of_mem id hx)
    rw [List.reverse_cons, List.foldl_append, ih hnd' hlen' hv']
    simp only [List.foldl_cons, List.foldl_nil,
      update_bot_usage_absent_room (hv id (List.mem_cons_self id rest)) hmem hlt]

/-- C6 counterexample: from `[1, 2, 3]` with capacity 3, `use(2)` gives
`[2, 1, 3]`, and `use(4)` then overwrites the last element of
`[2, 1, 3]` (giving `[2, 1, 4]`) and rotates it to the front, so the
final state is `[4, 2, 1]` — not `[4, 1, 2]` as the claim states. -/
theorem c6_scenario_counterexample :
    update_bot_usage (fun _ => true) 3 2 [1, 2, 3] = (true, [2, 1, 3]) ∧
    update_bot_usage (fun _ => true) 3 4 [2, 1, 3] = (true, [4, 2, 1]) ∧
    (update_bot_usage (fun _ => true) 3 4
        ((update_bot_usage (fun _ => true) 3 2 [1, 2, 3]).2)).2 ≠ [4, 1, 2] := by
  decide

/-- C6 (amended): for a usable bot id, `update_bot_usage` is a no-op on
the front id; moves a present id to the front without size change;
appends-then-rotates an absent id when there is room; and, at capacity,
overwrites the last element with the absent id and rotates it to the
front.  In the concrete scenario, `[1, 2, 3]` with capacity 3 becomes
`[2, 1, 3]` after `use(2)` and `[4, 2, 1]` (not `[4, 1, 2]`) after
`use(4)`. -/
theorem c6_update_bot_usage_cases (valid : Nat → Bool) (N id : Nat) (l : List Nat)
    (hv : valid id = true) :
    (l.head? = some id → update_bot_usage valid N id l = (false, l)) ∧
    (∀ i : Nat, l.head? ≠ some id → l.findIdx? (fun x => x == id) = some i →
        update_bot_usage valid N id l = (true, rotateToFront i l) ∧
        (rotateToFront i l).length = l.length) ∧
    (id ∉ l → l.length < N → update_bot_usage valid N id l = (true, id :: l)) ∧
    (id ∉ l → l ≠ [] → l.length = N →
        update_bot_usage valid N id l = (true, id :: l.dropLast) ∧
        (id :: l.dropLast).length = l.length) ∧
    (update_bot_usage (fun _ => true) 3 2 [1, 2, 3] = (true, [2, 1, 3]) ∧
      update_bot_usage (fun _ => true) 3 4 [2, 1, 3] = (true, [4, 2, 1])) := by
  refine ⟨?_, ?_, ?_, ?_, by decide⟩
  · intro hh
    simp [update_bot_usage, hv, hh]
  · intro i hh hf
    exact ⟨by simp [update_bot_usage, hv, hh, hf],
      rotateToFront_length (findIdx?_lt_length hf)⟩
  · intro hm hlt
    exact update_bot_usage_absent_room hv hm hlt
  · intro hm hnil hlen
    have hh : l.head? ≠ some id := by
      cases l with
      | nil => simp
      | cons a t =>
        simp only [List.head?_cons, ne_eq, Option.some.injEq]
        intro h
        exact hm (h ▸ List.mem_cons_self a t)
    have hfind : l.findIdx? (fun x => x == id) = none := by
      rw [List.findIdx?_eq_none_iff]
      intro x hx
      simp only [beq_eq_false_iff_ne, ne_eq]
      intro h
      exact hm (h ▸ hx)
    have hL : (l.dropLast ++ [id]).length - 1 = l.dropLast.length := by simp
    constructor
    · simp only [update_bot_usage, hv, Bool.not_true, Bool.false_eq_true, if_false, hh,
        hfind, hlen, ite_true, hL, rotateToFront_append]
    · have : 0 < l.length := List.length_pos.mpr hnil
      simp only [List.length_cons, List.length_dropLast]
      omega

/-- C6 witness. -/
theorem c6_update_bot_usage_cases_witness :
    update_bot_usage (fun _ => true) 5 9 [7, 8, 9] = (true, [9, 7, 8]) ∧
    update_bot_usage (fun _ => true) 3 4 [2, 1, 3] = (true, [4, 2, 1]) := by
  have h := c6_update_bot_usage_cases (fun _ => true) 5 9 [7, 8, 9] rfl
  have hb := (h.2.1 2 (by decide) (by decide)).1
  rw [hb]
  exact ⟨rfl, h.2.2.2.2.2⟩

/-- C7: the recently-used-bots list never exceeds the capacity `N`
under any sequence of `use`/`remove` operations; `use` of a member
never changes the size; and the comma-joined id persistence
(`save_recently_used_bots` then `load_recently_used_bots`, which
replays `use` in reverse order) reproduces the same front-to-back
list for a duplicate-free list of usable bots. -/
theorem c7_recent_list_props (valid : Nat → Bool) (uname : Nat → List Char) (N : Nat)
    (hN : 0 < N) :
    (∀ (ops : List RecentOp) (l : List Nat), l.length ≤ N →
        (ops.foldl (applyRecentOp valid N) l).length ≤ N) ∧
    (∀ (id : Nat) (l : List Nat), id ∈ l →
        ((update_bot_usage valid N id l).2).length = l.length) ∧
    (∀ l : List Nat, l.Nodup → l.length ≤ N → (∀ id ∈ l, valid id = true) →
        load_recently_used_bots valid N (save_recently_used_bots uname l).2 = l) := by
  refine ⟨fun ops l h => foldl_applyRecentOp_length_le hN ops l h,
    fun id l h => update_bot_usage_length_of_mem h, ?_⟩
  intro l hnd hlen hv
  cases l with
  | nil => rfl
  | cons n t =>
    have hsplit : full_split (join_comma ((n :: t).map natToChars)) = (n :: t).map natToChars := by
      apply full_split_join
      · simp
      · intro p hp
        obtain ⟨x, -, rfl⟩ := List.mem_map.mp hp
        exact comma_not_mem_natToChars x
      · intro p hp
        obtain ⟨x, -, rfl⟩ := List.mem_map.mp hp
        exact natToChars_ne_nil x
    have hparse : ((n :: t).map natToChars).map charsToNat = n :: t := by
      rw [List.map_map]
      have : charsToNat ∘ natToChars = id := funext charsToNat_natToChars
      simp [this]
    rw [load_recently_used_bots, save_recently_used_bots, hsplit, hparse]
    exact load_replay valid N (n :: t) hnd hlen hv

/-- C7 witness. -/
theorem c7_recent_list_props_witness :
    load_recently_used_bots (fun _ => true) 3
        (save_recently_used_bots (fun _ => []) [10, 7, 42]).2 = [10, 7, 42] ∧
    ((update_bot_usage (fun _ => true) 3 7 [10, 7, 42]).2).length = 3 := by
  have h := c7_recent_list_props (fun _ => true) (fun _ => []) 3 (by decide)
  exact ⟨h.2.2 [10, 7, 42] (by decide) (by decide) (fun id _ => rfl),
    h.2.1 7 [10, 7, 42] (by decide)⟩

/-! Helper lemmas about the cache and the dispatcher. -/

/-- One-equation characterization of the release operation on an entry
with a positive refcount. -/
theorem decrease_characterization (now : ℚ) (qh : Nat) (s : IQMState) (e : CacheEntry)
    (he : s.inline_query_results qh = some e) (hc : 0 < e.pending_request_count) :
    decrease_pending_request_count now qh s =
      some
        ((if e.pending_request_count = 1 ∧ e.cache_expire_time - now < 0 then
            ReleaseOutcome.moved e.results
          else ReleaseOutcome.copied e.results),
          { s with
              inline_query_results := setEntry s.inline_query_results qh
                (if e.pending_request_count = 1 ∧ e.cache_expire_time - now < 0 then none
                 else some { e with pending_request_count := e.pending_request_count - 1 }),
              drop_inline_query_result_timeout :=
                if e.pending_request_count = 1 ∧ ¬(e.cache_expire_time - now < 0) then
                  setDropTimeout s.drop_inline_query_result_timeout qh e.cache_expire_time
                else s.drop_inline_query_result_timeout }) := by
  simp only [decrease_pending_request_count, he]
  rw [if_neg (by omega : ¬(e.pending_request_count ≤ 0))]
  by_cases h1 : e.pending_request_count = 1
  · rw [if_pos (by omega : e.pending_request_count - 1 = 0)]
    by_cases h2 : e.cache_expire_time - now < 0
    · rw [if_pos h2]
      simp [h1, h2]
    · rw [if_neg h2]
      simp [h1, h2]
  · rw [if_neg (by omega : ¬(e.pending_request_count - 1 = 0))]
    simp [h1]

/-- The scheduling step never modifies the cache map or the eviction
timers. -/
theorem loop_cache_frame (now : ℚ) (ok : Nat → Bool) (s : IQMState) :
    ((loop now ok s).1).inline_query_results = s.inline_query_results ∧
    ((loop now ok s).1).drop_inline_query_result_timeout =
      s.drop_inline_query_result_timeout := by
  cases hp : s.pending_inline_query with
  | none => simp [loop, hp]
  | some p =>
    by_cases h1 : s.next_inline_query_time ≤ now
    · cases hok : ok p.bot_user_id <;> simp [loop, hp, h1, hok]
    · by_cases h2 : s.loop_timeout = none <;> simp [loop, hp, h1, h2]

/-- After the scheduling step, a queued request for a usable bot either
stays queued or its remote call has been issued. -/
theorem loop_pending_or_send (now : ℚ) (ok : Nat → Bool) (s : IQMState)
    (p : PendingInlineQuery) (hp : s.pending_inline_query = some p)
    (hok : ok p.bot_user_id = true) :
    ((loop now ok s).1).pending_inline_query = some p ∨
      Event.send_remote p.promise p.query_hash ∈ (loop now ok s).2 := by
  by_cases h1 : s.next_inline_query_time ≤ now
  · right
    cases hq : s.sent_query <;> simp [loop, hp, h1, hok, hq]
  · left
    by_cases h2 : s.loop_timeout = none <;> simp [loop, hp, h1, h2]

/-- Dropping a queued request plus the scheduling step leaves the cache
entry of any other fingerprint unchanged and leaves the new request
queued or dispatched. -/
theorem storePending_outcome (now : ℚ) (ok : Nat → Bool) (req : PendingInlineQuery)
    (s : IQMState) (hok : ok req.bot_user_id = true)
    (hsup : SupersedableAway req.query_hash s) :
    ∃ s' evs, storePendingInlineQuery now ok req s = some (s', evs) ∧
      s'.inline_query_results req.query_hash = s.inline_query_results req.query_hash ∧
      (s'.pending_inline_query = some req ∨
        Event.send_remote req.promise req.query_hash ∈ evs) := by
  rcases hsup with hnone | ⟨old, eo, hold, hne, heo, hpos⟩
  · refine ⟨(loop now ok { s with pending_inline_query := some req }).1,
      (loop now ok { s with pending_inline_query := some req }).2, ?_, ?_, ?_⟩
    · simp [storePendingInlineQuery, hnone]
    · rw [(loop_cache_frame now ok _).1]
    · exact loop_pending_or_send now ok _ req rfl hok
  · have hdec := decrease_characterization now old.query_hash s eo heo hpos
    rw [storePendingInlineQuery, hold]
    simp only [on_get_inline_query_results]
    rw [hdec]
    simp only [Option.map_some']
    set s₂ : IQMState :=
      { s with
          inline_query_results := setEntry s.inline_query_results old.query_hash
            (if eo.pending_request_count = 1 ∧ eo.cache_expire_time - now < 0 then none
             else some { eo with pending_request_count := eo.pending_request_count - 1 }),
          drop_inline_query_result_timeout :=
            if eo.pending_request_count = 1 ∧ ¬(eo.cache_expire_time - now < 0) then
              setDropTimeout s.drop_inline_query_result_timeout old.query_hash
                eo.cache_expire_time
            else s.drop_inline_query_result_timeout } with hs₂
    refine ⟨(loop now ok { s₂ with pending_inline_query := some req }).1,
      Event.promise_error old.promise 406 ::
        (loop now ok { s₂ with pending_inline_query := some req }).2, rfl, ?_, ?_⟩
    · rw [(loop_cache_frame now ok _).1]
      show setEntry s.inline_query_results old.query_hash _ req.query_hash =
        s.inline_query_results req.query_hash
      rw [setEntry]
      exact if_neg (fun h => hne (h.symm))
    · rcases loop_pending_or_send now ok { s₂ with pending_inline_query := some req } req rfl
        hok with h | h
      · exact Or.inl h
      · exact Or.inr (List.mem_cons_of_mem _ h)

/-- Storing a successful result never removes an entry. -/
theorem on_get_store_frame (now : ℚ) (qh : Nat) (ct : ℚ) (payload : ResultSet)
    (s s' : IQMState)
    (h : on_get_inline_query_results now qh (some (ct, payload)) s = some s') :
    ∀ k, Option.isSome (s'.inline_query_results k) =
      Option.isSome (s.inline_query_results k) := by
  intro k
  rcases he : s.inline_query_results qh with _ | e
  · rw [on_get_inline_query_results, he] at h
    exact absurd h (by simp)
  · rw [on_get_inline_query_results, he] at h
    simp only [Option.some.injEq] at h
    subst h
    show Option.isSome (setEntry s.inline_query_results qh _ k) = _
    rw [setEntry]
    by_cases hk : k = qh
    · subst hk
      simp [he]
    · simp [hk]

theorem supersedableAway_setEntry (qh : Nat) (v : Option CacheEntry) (s : IQMState)
    (h : SupersedableAway qh s) :
    SupersedableAway qh { s with inline_query_results := setEntry s.inline_query_results qh v } := by
  rcases h with hnone | ⟨old, eo, hold, hne, heo, hpos⟩
  · exact Or.inl hnone
  · refine Or.inr ⟨old, eo, hold, hne, ?_, hpos⟩
    show setEntry s.inline_query_results qh v old.query_hash = some eo
    rw [setEntry, if_neg hne, heo]

/-- C1 counterexample: the eviction-timer callback — not the release
operation — erases the entry of fingerprint 7 (stored result present,
refcount 0), so release is not the only operation that erases. -/
theorem c1_timer_erase_counterexample :
    (on_drop_inline_query_result_timeout_callback 7
        ⟨fun k => if k = 7 then some ⟨some ⟨1, [7], "", ""⟩, 5, 0⟩ else none,
          none, none, 0, fun _ => none, none⟩).map
      (fun x => x.inline_query_results 7) = some none ∧
    (⟨fun k => if k = 7 then some ⟨some ⟨1, [7], "", ""⟩, 5, 0⟩ else none,
        none, none, 0, fun _ => none, none⟩ : IQMState).inline_query_results 7 =
      some ⟨some ⟨1, [7], "", ""⟩, 5, 0⟩ :=
  ⟨rfl, rfl⟩

/-- C1 (amended): release decrements the refcount; while the count
stays positive it returns a deep copy of the stored result; on reaching
zero with `expire_at - now < 0` (an absent result has expire time `-1`,
hence is already expired for any non-negative `now`) it erases the
entry and returns the original moved out; on reaching zero unexpired it
arms the eviction timer at `expire_at` and returns a deep copy.
Release and the eviction-timer callback are the only operations that
erase an entry: the scheduling step never modifies the cache and a
successful store never removes an entry (supersession and error
responses erase only by invoking release itself). -/
theorem c1_release_cases (now : ℚ) (qh : Nat) (s : IQMState) (e : CacheEntry)
    (he : s.inline_query_results qh = some e) (hc : 0 < e.pending_request_count) :
    (1 < e.pending_request_count →
        decrease_pending_request_count now qh s =
          some (ReleaseOutcome.copied e.results,
            { s with
                inline_query_results :=
                  setEntry s.inline_query_results qh
                    (some { e with pending_request_count := e.pending_request_count - 1 }) })) ∧
    (e.pending_request_count = 1 → e.cache_expire_time - now < 0 →
        decrease_pending_request_count now qh s =
          some (ReleaseOutcome.moved e.results,
            { s with inline_query_results := setEntry s.inline_query_results qh none })) ∧
    (e.pending_request_count = 1 → e.results = none → e.cache_expire_time = -1 → 0 ≤ now →
        decrease_pending_request_count now qh s =
          some (ReleaseOutcome.moved none,
            { s with inline_query_results := setEntry s.inline_query_results qh none })) ∧
    (e.pending_request_count = 1 → ¬(e.cache_expire_time - now < 0) →
        decrease_pending_request_count now qh s =
          some (ReleaseOutcome.copied e.results,
            { s with
                inline_query_results :=
                  setEntry s.inline_query_results qh
                    (some { e with pending_request_count := e.pending_request_count - 1 }),
                drop_inline_query_result_timeout :=
                  setDropTimeout s.drop_inline_query_result_timeout qh
                    e.cache_expire_time })) ∧
    (∀ (now2 : ℚ) (ok : Nat → Bool) (s2 : IQMState),
        ((loop now2 ok s2).1).inline_query_results = s2.inline_query_results) ∧
    (∀ (now2 : ℚ) (qh2 : Nat) (ct : ℚ) (payload : ResultSet) (s2 s2' : IQMState),
        on_get_inline_query_results now2 qh2 (some (ct, payload)) s2 = some s2' →
        ∀ k, Option.isSome (s2'.inline_query_results k) =
          Option.isSome (s2.inline_query_results k)) := by
  have hch := decrease_characterization now qh s e he hc
  refine ⟨?_, ?_, ?_, ?_, fun now2 ok s2 => (loop_cache_frame now2 ok s2).1,
    fun now2 qh2 ct payload s2 s2' h k => on_get_store_frame now2 qh2 ct payload s2 s2' h k⟩
  · intro h1
    rw [hch]
    have hne : e.pending_request_count ≠ 1 := by omega
    simp [hne]
  · intro h1 h2
    rw [hch]
    have h2' : e.cache_expire_time < now := sub_neg.mp h2
    simp [h1, h2']
  · intro h1 hres hexp hnow
    have h2' : e.cache_expire_time < now := by
      rw [hexp]
      linarith
    rw [hch]
    simp [h1, h2', hres]
  · intro h1 h2
    rw [hch]
    have h2' : ¬(e.cache_expire_time < now) := fun hx => h2 (sub_neg.mpr hx)
    simp [h1, h2']

/-- C1 witness. -/
theorem c1_release_cases_witness :
    decrease_pending_request_count 0 3
        ⟨fun k => if k = 3 then some ⟨some ⟨1, [7], "", ""⟩, 5, 2⟩ else none,
          none, none, 0, fun _ => none, none⟩ =
      some (ReleaseOutcome.copied (some ⟨1, [7], "", ""⟩),
        ⟨setEntry (fun k => if k = 3 then some ⟨some ⟨1, [7], "", ""⟩, 5, 2⟩ else none) 3
            (some ⟨some ⟨1, [7], "", ""⟩, 5, 1⟩),
          none, none, 0, fun _ => none, none⟩) := by
  exact (c1_release_cases 0 3
    ⟨fun k => if k = 3 then some ⟨some ⟨1, [7], "", ""⟩, 5, 2⟩ else none,
      none, none, 0, fun _ => none, none⟩
    ⟨some ⟨1, [7], "", ""⟩, 5, 2⟩ rfl (by decide)).1 (by decide)

/-- C2 counterexample: a new submission (fingerprint 4) supersedes the
queued request for fingerprint 3; the superseded request's entry
(refcount 1, empty, expire `-1`) has its refcount decremented to 0 by
the supersession path and is erased — the claim says the entry's
refcount is unchanged and the entry is not erased. -/
theorem c2_supersession_counterexample :
    ((send_inline_query 0 (fun _ => true) ⟨4, 9, "r", "", 11⟩
          ⟨fun j => if j = 3 then some ⟨none, -1, 1⟩ else none,
            some ⟨3, 9, "q", "", 10⟩, none, 5, fun _ => none, none⟩).map
        (fun r => r.1.inline_query_results 3)) = some none ∧
    (⟨fun j => if j = 3 then some ⟨none, -1, 1⟩ else none,
        some ⟨3, 9, "q", "", 10⟩, none, 5, fun _ => none, none⟩ :
      IQMState).inline_query_results 3 = some ⟨none, -1, 1⟩ := by
  constructor
  · simp only [send_inline_query, storePendingInlineQuery, on_get_inline_query_results,
      decrease_pending_request_count, loop, setEntry]
    norm_num
    simp [setEntry]
  · rfl

/-- C2 (amended): an error or cancelled response invokes exactly the
release path, and superseding a queued request runs the release path
once on the superseded request's fingerprint (decrementing its refcount
and erasing the entry exactly when the count reaches zero on an expired
entry) and fails its promise with error 406; the scheduling step never
modifies the cache, and a successful store never removes an entry, so
erasure happens only through the release path. -/
theorem c2_supersession_and_error_release (now : ℚ) (qh : Nat) (s : IQMState) :
    (on_get_inline_query_results now qh none s =
        (decrease_pending_request_count now qh s).map (fun r => r.2)) ∧
    (∀ (ok : Nat → Bool) (req old : PendingInlineQuery) (eo : CacheEntry),
        s.pending_inline_query = some old →
        s.inline_query_results old.query_hash = some eo →
        0 < eo.pending_request_count →
        (storePendingInlineQuery now ok req s).map
            (fun r => r.1.inline_query_results old.query_hash) =
          some (if eo.pending_request_count = 1 ∧ eo.cache_expire_time - now < 0 then none
                else some { eo with pending_request_count := eo.pending_request_count - 1 }) ∧
        (storePendingInlineQuery now ok req s).map (fun r => r.2.head?) =
          some (some (Event.promise_error old.promise 406))) ∧
    (∀ (now2 : ℚ) (ok : Nat → Bool) (s2 : IQMState),
        ((loop now2 ok s2).1).inline_query_results = s2.inline_query_results) ∧
    (∀ (now2 : ℚ) (qh2 : Nat) (ct : ℚ) (payload : ResultSet) (s2 s2' : IQMState),
        on_get_inline_query_results now2 qh2 (some (ct, payload)) s2 = some s2' →
        ∀ k, Option.isSome (s2'.inline_query_results k) =
          Option.isSome (s2.inline_query_results k)) := by
  refine ⟨rfl, ?_, fun now2 ok s2 => (loop_cache_frame now2 ok s2).1,
    fun now2 qh2 ct payload s2 s2' h k => on_get_store_frame now2 qh2 ct payload s2 s2' h k⟩
  intro ok req old eo hold heo hpos
  have hdec := decrease_characterization now old.query_hash s eo heo hpos
  rw [storePendingInlineQuery, hold]
  simp only [on_get_inline_query_results]
  rw [hdec]
  simp only [Option.map_some']
  constructor
  · rw [(loop_cache_frame now ok _).1]
    show some (setEntry s.inline_query_results old.query_hash _ old.query_hash) = _
    rw [setEntry, if_pos rfl]
  · rfl

/-- C3 counterexample: when the entry for the fired fingerprint no
longer exists, the timer callback is not a no-op — it is a fatal
assertion failure (`CHECK(it != inline_query_results_.end())`),
modelled as `none` rather than `some` of the unchanged state. -/
theorem c3_missing_entry_counterexample :
    (⟨fun _ => none, none, none, 0, fun _ => none, none⟩ :
        IQMState).inline_query_results 5 = none ∧
    on_drop_inline_query_result_timeout_callback 5
        ⟨fun _ => none, none, none, 0, fun _ => none, none⟩ = none ∧
    on_drop_inline_query_result_timeout_callback 5
        ⟨fun _ => none, none, none, 0, fun _ => none, none⟩ ≠
      some ⟨fun _ => none, none, none, 0, fun _ => none, none⟩ :=
  ⟨rfl, rfl, fun h => Option.noConfusion h⟩

/-- C3 (amended): when the eviction timer fires, a missing entry (and
likewise an entry with no stored result, or a negative refcount) is a
fatal assertion failure rather than a no-op; an existing entry with a
stored result is erased when its refcount is 0 and left untouched (a
no-op) when its refcount is positive. -/
theorem c3_on_drop_timeout_cases (qh : Nat) (s : IQMState) :
    (s.inline_query_results qh = none →
        on_drop_inline_query_result_timeout_callback qh s = none) ∧
    (∀ e, s.inline_query_results qh = some e → e.results = none →
        on_drop_inline_query_result_timeout_callback qh s = none) ∧
    (∀ e r, s.inline_query_results qh = some e → e.results = some r →
        e.pending_request_count = 0 →
        on_drop_inline_query_result_timeout_callback qh s =
          some { s with inline_query_results := setEntry s.inline_query_results qh none }) ∧
    (∀ e r, s.inline_query_results qh = some e → e.results = some r →
        0 < e.pending_request_count →
        on_drop_inline_query_result_timeout_callback qh s = some s) := by
  refine ⟨?_, ?_, ?_, ?_⟩
  · intro h
    simp [on_drop_inline_query_result_timeout_callback, h]
  · intro e he hr
    simp [on_drop_inline_query_result_timeout_callback, he, hr]
  · intro e r he hr hc
    simp [on_drop_inline_query_result_timeout_callback, he, hr, hc]
  · intro e r he hr hc
    simp only [on_drop_inline_query_result_timeout_callback, he, hr]
    rw [if_neg (by omega : ¬(e.pending_request_count < 0)),
      if_neg (by omega : ¬(e.pending_request_count = 0))]

/-- C5 counterexample: with an occupied slot and the debounce deadline
already passed (0 ≤ 10) but no input user constructible for the bot,
the scheduling step emits no event at all — no remote call is issued
and the deadline is not advanced, contrary to the claim. -/
theorem c5_no_dispatch_counterexample :
    (⟨fun _ => none, some ⟨3, 9, "q", "", 10⟩, none, 0, fun _ => none, none⟩ :
        IQMState).pending_inline_query = some ⟨3, 9, "q", "", 10⟩ ∧
    (⟨fun _ => none, some ⟨3, 9, "q", "", 10⟩, none, 0, fun _ => none, none⟩ :
        IQMState).next_inline_query_time ≤ 10 ∧
    (loop 10 (fun _ => false)
        ⟨fun _ => none, some ⟨3, 9, "q", "", 10⟩, none, 0, fun _ => none, none⟩).2 = [] ∧
    ((loop 10 (fun _ => false)
        ⟨fun _ => none, some ⟨3, 9, "q", "", 10⟩, none, 0, fun _ => none, none⟩).1
      ).next_inline_query_time = 0 := by
  refine ⟨rfl, by norm_num, ?_, ?_⟩
  · simp [loop]
  · simp [loop]

/-- C5 (amended): the scheduling step does nothing on an empty slot;
with an occupied slot whose debounce deadline has passed and whose bot
admits an input user, it cancels the in-flight call if one exists,
issues the remote call, advances the deadline by the dispatch interval
and clears the slot (when no input user can be constructed the slot is
dropped instead, see the companion property); before the deadline it
arms the wake-up timer exactly when none is armed.  The in-flight call
and the pending slot are single-valued. -/
theorem c5_loop_cases (now : ℚ) (ok : Nat → Bool) (s : IQMState) :
    (s.pending_inline_query = none → loop now ok s = (s, [])) ∧
    (∀ p, s.pending_inline_query = some p → s.next_inline_query_time ≤ now →
        ok p.bot_user_id = true →
        loop now ok s =
          ({ s with
              sent_query := some p.promise,
              next_inline_query_time := now + INLINE_QUERY_DELAY_MS * (1 / 1000),
              pending_inline_query := none },
            (match s.sent_query with
             | some q => [Event.cancel_sent q]
             | none => []) ++ [Event.send_remote p.promise p.query_hash])) ∧
    (∀ p q, s.pending_inline_query = some p → s.next_inline_query_time ≤ now →
        ok p.bot_user_id = true → s.sent_query = some q →
        Event.cancel_sent q ∈ (loop now ok s).2 ∧
        Event.send_remote p.promise p.query_hash ∈ (loop now ok s).2) ∧
    (∀ p, s.pending_inline_query = some p → ¬(s.next_inline_query_time ≤ now) →
        s.loop_timeout = none →
        loop now ok s = ({ s with loop_timeout := some s.next_inline_query_time }, [])) ∧
    (∀ p, s.pending_inline_query = some p → ¬(s.next_inline_query_time ≤ now) →
        s.loop_timeout ≠ none → loop now ok s = (s, [])) ∧
    (∀ q q', s.sent_query = some q → s.sent_query = some q' → q = q') ∧
    (∀ p p', s.pending_inline_query = some p → s.pending_inline_query = some p' →
        p = p') := by
  refine ⟨?_, ?_, ?_, ?_, ?_, ?_, ?_⟩
  · intro h
    simp [loop, h]
  · intro p hp hle hok
    simp [loop, hp, hle, hok]
  · intro p q hp hle hok hq
    constructor <;> simp [loop, hp, hle, hok, hq]
  · intro p hp hle ht
    simp [loop, hp, hle, ht]
  · intro p hp hle ht
    simp [loop, hp, hle, ht]
  · intro q q' h h'
    rw [h] at h'
    exact Option.some.inj h'
  · intro p p' h h'
    rw [h] at h'
    exact Option.some.inj h'

/-- C9: when the scheduler fires with an occupied slot past the
debounce deadline but no input user can be constructed for the pending
bot, the slot is cleared and nothing else happens: no event is emitted
(no remote call, no promise completion), the cache and its refcounts
are untouched, and the deadline and in-flight call are unchanged. -/
theorem c9_loop_drops_request_without_input_user (now : ℚ) (ok : Nat → Bool)
    (s : IQMState) (p : PendingInlineQuery) (hp : s.pending_inline_query = some p)
    (hle : s.next_inline_query_time ≤ now) (hok : ok p.bot_user_id = false) :
    loop now ok s = ({ s with pending_inline_query := none }, []) ∧
    ((loop now ok s).1).inline_query_results = s.inline_query_results ∧
    ((loop now ok s).1).next_inline_query_time = s.next_inline_query_time ∧
    ((loop now ok s).1).sent_query = s.sent_query ∧
    (loop now ok s).2 = [] := by
  have h : loop now ok s = ({ s with pending_inline_query := none }, []) := by
    simp [loop, hp, hle, hok]
  exact ⟨h, by rw [h], by rw [h], by rw [h], by rw [h]⟩

/-- C9 witness. -/
theorem c9_loop_drops_request_without_input_user_witness :
    loop 10 (fun _ => false)
        ⟨fun _ => none, some ⟨3, 9, "q", "", 10⟩, none, 0, fun _ => none, none⟩ =
      ({ (⟨fun _ => none, some ⟨3, 9, "q", "", 10⟩, none, 0, fun _ => none, none⟩ :
          IQMState) with pending_inline_query := none }, []) := by
  exact (c9_loop_drops_request_without_input_user 10 (fun _ => false)
    ⟨fun _ => none, some ⟨3, 9, "q", "", 10⟩, none, 0, fun _ => none, none⟩
    ⟨3, 9, "q", "", 10⟩ rfl (by norm_num) rfl).1

/-- Dropping a queued request that targets the same fingerprint as the
new request runs the release path on that very entry: with a refcount
above 1 the entry survives with the count decremented by one, and the
new request is queued or dispatched by the scheduling step. -/
theorem storePending_same (now : ℚ) (ok : Nat → Bool) (req : PendingInlineQuery)
    (s : IQMState) (old : PendingInlineQuery) (e₁ : CacheEntry)
    (hok : ok req.bot_user_id = true)
    (hold : s.pending_inline_query = some old)
    (hsame : old.query_hash = req.query_hash)
    (he : s.inline_query_results req.query_hash = some e₁)
    (hc : 1 < e₁.pending_request_count) :
    ∃ s' evs, storePendingInlineQuery now ok req s = some (s', evs) ∧
      s'.inline_query_results req.query_hash =
        some { e₁ with pending_request_count := e₁.pending_request_count - 1 } ∧
      (s'.pending_inline_query = some req ∨
        Event.send_remote req.promise req.query_hash ∈ evs) := by
  have hcache : s.inline_query_results old.query_hash = some e₁ := by
    rw [hsame]
    exact he
  have hdec := decrease_characterization now old.query_hash s e₁ hcache (by omega)
  rw [storePendingInlineQuery, hold]
  simp only [on_get_inline_query_results]
  rw [hdec]
  simp only [Option.map_some']
  set s₂ : IQMState :=
    { s with
        inline_query_results := setEntry s.inline_query_results old.query_hash
          (if e₁.pending_request_count = 1 ∧ e₁.cache_expire_time - now < 0 then none
           else some { e₁ with pending_request_count := e₁.pending_request_count - 1 }),
        drop_inline_query_result_timeout :=
          if e₁.pending_request_count = 1 ∧ ¬(e₁.cache_expire_time - now < 0) then
            setDropTimeout s.drop_inline_query_result_timeout old.query_hash
              e₁.cache_expire_time
          else s.drop_inline_query_result_timeout } with hs₂
  refine ⟨(loop now ok { s₂ with pending_inline_query := some req }).1,
    Event.promise_error old.promise 406 ::
      (loop now ok { s₂ with pending_inline_query := some req }).2, rfl, ?_, ?_⟩
  · rw [(loop_cache_frame now ok _).1]
    show setEntry s.inline_query_results old.query_hash _ req.query_hash = _
    rw [hsame, setEntry, if_pos rfl]
    rw [if_neg (by
      rintro ⟨h, -⟩
      omega)]
  · rcases loop_pending_or_send now ok { s₂ with pending_inline_query := some req } req rfl
      hok with h | h
    · exact Or.inl h
    · exact Or.inr (List.mem_cons_of_mem _ h)

/-- C4 counterexample (the spec's Scenario B fingerprint sharing): a new
request for fingerprint 3 is admitted while a request for the same
fingerprint 3 is queued.  The admission increments the entry's refcount
from 1 to 2, but superseding the queued request immediately runs the
release path on the same entry, so after the call the refcount is back
at 1 — the entry's count is not incremented as the claim states. -/
theorem c4_same_fingerprint_counterexample :
    ((send_inline_query 0 (fun _ => true) ⟨3, 9, "r", "", 11⟩
          ⟨fun j => if j = 3 then some ⟨none, -1, 1⟩ else none,
            some ⟨3, 9, "q", "", 10⟩, none, 5, fun _ => none, none⟩).map
        (fun r => r.1.inline_query_results 3)) = some (some ⟨none, -1, 1⟩) ∧
    ((send_inline_query 0 (fun _ => true) ⟨3, 9, "r", "", 11⟩
          ⟨fun j => if j = 3 then some ⟨none, -1, 1⟩ else none,
            some ⟨3, 9, "q", "", 10⟩, none, 5, fun _ => none, none⟩).map
        (fun r => r.1.inline_query_results 3)) ≠ some (some ⟨none, -1, 2⟩) ∧
    (⟨fun j => if j = 3 then some ⟨none, -1, 1⟩ else none,
        some ⟨3, 9, "q", "", 10⟩, none, 5, fun _ => none, none⟩ :
      IQMState).inline_query_results 3 = some ⟨none, -1, 1⟩ := by
  refine ⟨?_, ?_, rfl⟩ <;> decide

/-- C4 (amended): admission of a request whose fingerprint has a cache
entry increments that entry's refcount at the admission step; on a
fresh hit (`now < expire_at`) the caller's promise is completed
immediately, no new pending request is created and no remote dispatch
is triggered (the state changes only by the increment); otherwise —
entry stale, empty, still resolving, or absent — a new pending request
replaces the queued one and the scheduling step runs, so the request is
either queued or dispatched, and an absent entry is created with
refcount 1.  However, when the replaced queued request targets the very
same fingerprint, its supersession immediately runs the release path on
that entry, so after the call the refcount is back at its original
value — net unchanged, not incremented. -/
theorem c4_admission_cases (now : ℚ) (ok : Nat → Bool) (req : PendingInlineQuery)
    (s : IQMState) :
    (∀ e, s.inline_query_results req.query_hash = some e →
        now < e.cache_expire_time →
        send_inline_query now ok req s =
          some ({ s with
              inline_query_results :=
                setEntry s.inline_query_results req.query_hash
                  (some
                    { e with pending_request_count := e.pending_request_count + 1 }) },
            [Event.promise_value req.promise])) ∧
    (∀ e, s.inline_query_results req.query_hash = some e →
        ¬(now < e.cache_expire_time) → ok req.bot_user_id = true →
        SupersedableAway req.query_hash s →
        ∃ s' evs, send_inline_query now ok req s = some (s', evs) ∧
          s'.inline_query_results req.query_hash =
            some { e with pending_request_count := e.pending_request_count + 1 } ∧
          (s'.pending_inline_query = some req ∨
            Event.send_remote req.promise req.query_hash ∈ evs)) ∧
    (s.inline_query_results req.query_hash = none →
        ok req.bot_user_id = true → SupersedableAway req.query_hash s →
        ∃ s' evs, send_inline_query now ok req s = some (s', evs) ∧
          s'.inline_query_results req.query_hash =
            some { results := none, cache_expire_time := -1, pending_request_count := 1 } ∧
          (s'.pending_inline_query = some req ∨
            Event.send_remote req.promise req.query_hash ∈ evs)) ∧
    (∀ old e, s.pending_inline_query = some old →
        old.query_hash = req.query_hash →
        s.inline_query_results req.query_hash = some e →
        0 < e.pending_request_count → ¬(now < e.cache_expire_time) →
        ok req.bot_user_id = true →
        ∃ s' evs, send_inline_query now ok req s = some (s', evs) ∧
          s'.inline_query_results req.query_hash = some e ∧
          (s'.pending_inline_query = some req ∨
            Event.send_remote req.promise req.query_hash ∈ evs)) := by
  refine ⟨?_, ?_, ?_, ?_⟩
  · intro e he hf
    simp [send_inline_query, he, hf]
  · intro e he hf hok hsup
    simp only [send_inline_query, he]
    rw [if_neg hf]
    obtain ⟨s', evs, heq, hcache, hout⟩ := storePending_outcome now ok req
      { s with
          inline_query_results :=
            setEntry s.inline_query_results req.query_hash
              (some { e with pending_request_count := e.pending_request_count + 1 }) }
      hok (supersedableAway_setEntry req.query_hash _ s hsup)
    refine ⟨s', evs, heq, ?_, hout⟩
    rw [hcache]
    show setEntry s.inline_query_results req.query_hash _ req.query_hash = _
    rw [setEntry, if_pos rfl]
  · intro he hok hsup
    simp only [send_inline_query, he]
    obtain ⟨s', evs, heq, hcache, hout⟩ := storePending_outcome now ok req
      { s with
          inline_query_results :=
            setEntry s.inline_query_results req.query_hash
              (some
                { results := none, cache_expire_time := -1,
                  pending_request_count := 1 }) }
      hok (supersedableAway_setEntry req.query_hash _ s hsup)
    refine ⟨s', evs, heq, ?_, hout⟩
    rw [hcache]
    show setEntry s.inline_query_results req.query_hash _ req.query_hash = _
    rw [setEntry, if_pos rfl]
  · intro old e hold hsame he hpos hstale hok
    simp only [send_inline_query, he]
    rw [if_neg hstale]
    obtain ⟨s', evs, heq, hcache, hout⟩ := storePending_same now ok req
      { s with
          inline_query_results :=
            setEntry s.inline_query_results req.query_hash
              (some { e with pending_request_count := e.pending_request_count + 1 }) }
      old { e with pending_request_count := e.pending_request_count + 1 }
      hok hold hsame
      (by
        show setEntry s.inline_query_results req.query_hash _ req.query_hash = _
        rw [setEntry, if_pos rfl])
      (by
        show (1 : ℤ) < e.pending_request_count + 1
        omega)
    refine ⟨s', evs, heq, ?_, hout⟩
    rw [hcache]
    cases e with
    | mk r t c =>
      have hcc : c + 1 - 1 = c := by omega
      simp [hcc]

/-- C8: the fingerprint equals the specification's fold — a hash of the
trimmed text combined with the provider id, the offset hash and (only
when the provider needs a location) the two quantized coordinates, each
step `h * K + field` on 64 bits — with the top bit cleared at the end
(the result is below `2 ^ 63`); the multiplier is odd; and two requests
with identical normalized inputs produce the same fingerprint. -/
theorem c8_fingerprint_construction (hstr : String → Nat) (query : String)
    (bot_user_id : Nat) (off_set : String) (need_location : Bool) (lat_q lon_q : Nat) :
    (send_inline_query_hash hstr query bot_user_id off_set need_location lat_q lon_q =
        fingerprint_spec hstr query bot_user_id off_set need_location lat_q lon_q) ∧
    (send_inline_query_hash hstr query bot_user_id off_set need_location lat_q lon_q <
        2 ^ 63) ∧
    Odd KMULT ∧
    (∀ query2 : String, query2.trim = query.trim →
        send_inline_query_hash hstr query2 bot_user_id off_set need_location lat_q lon_q =
          send_inline_query_hash hstr query bot_user_id off_set need_location
            lat_q lon_q) := by
  refine ⟨?_, ?_, ⟨1011827492, by norm_num [KMULT]⟩, ?_⟩
  · have hmask : (2 ^ 63 - 1 : Nat) = 0x7FFFFFFFFFFFFFFF := by norm_num
    cases need_location with
    | false =>
      simp only [send_inline_query_hash, fingerprint_spec, Bool.false_eq_true, if_false,
        List.append_nil, List.foldl_cons, List.foldl_nil, hmask]
    | true =>
      simp only [send_inline_query_hash, fingerprint_spec, if_true, List.cons_append,
        List.nil_append, List.foldl_cons, List.foldl_nil, hmask]
  · calc send_inline_query_hash hstr query bot_user_id off_set need_location lat_q lon_q ≤
        0x7FFFFFFFFFFFFFFF := by
          simp only [send_inline_query_hash]
          exact Nat.and_le_right
    _ < 2 ^ 63 := by norm_num
  · intro query2 hq
    simp only [send_inline_query_hash, hq]

/-! Helper lemmas for the inline-message-id codec. -/

theorem decSextet_encSextet : ∀ v : Nat, v < 64 → decSextet (encSextet v) = some v := by
  decide

theorem base64url_decode_encode : ∀ l : List Nat, (∀ b ∈ l, b < 256) →
    base64url_decode (base64url_encode l) = some l := by
  intro l
  induction l using base64url_encode.induct with
  | case1 a b c rest ih =>
    intro hb
    have ha : a < 256 := hb a (by simp)
    have hbb : b < 256 := hb b (by simp)
    have hc : c < 256 := hb c (by simp)
    have hrest : ∀ x ∈ rest, x < 256 := fun x hx => hb x (by simp [hx])
    have h0 := decSextet_encSextet (a / 4) (by omega)
    have h1 := decSextet_encSextet (a % 4 * 16 + b / 16) (by omega)
    have h2 := decSextet_encSextet (b % 16 * 4 + c / 64) (by omega)
    have h3 := decSextet_encSextet (c % 64) (by omega)
    simp only [base64url_encode, base64url_decode, h0, h1, h2, h3, ih hrest]
    simp only [Option.some.injEq, List.cons.injEq]
    refine ⟨by omega, by omega, by omega, trivial⟩
  | case2 a b =>
    intro hb
    have ha : a < 256 := hb a (by simp)
    have hbb : b < 256 := hb b (by simp)
    have h0 := decSextet_encSextet (a / 4) (by omega)
    have h1 := decSextet_encSextet (a % 4 * 16 + b / 16) (by omega)
    have h2 := decSextet_encSextet (b % 16 * 4) (by omega)
    simp only [base64url_encode, base64url_decode, h0, h1, h2]
    rw [if_pos (by omega : b % 16 * 4 % 4 = 0)]
    simp only [Option.some.injEq, List.cons.injEq]
    refine ⟨by omega, by omega, trivial⟩
  | case3 a =>
    intro hb
    have ha : a < 256 := hb a (by simp)
    have h0 := decSextet_encSextet (a / 4) (by omega)
    have h1 := decSextet_encSextet (a % 4 * 16) (by omega)
    simp only [base64url_encode, base64url_decode, h0, h1]
    rw [if_pos (by omega : a % 4 * 16 % 16 = 0)]
    simp only [Option.some.injEq, List.cons.injEq]
    refine ⟨by omega, trivial⟩
  | case4 =>
    intro _
    rfl

theorem leBytes_lt (k : Nat) : ∀ (n : Nat), ∀ b ∈ leBytes k n, b < 256 := by
  induction k with
  | zero =>
    intro n b hb
    simp [leBytes] at hb
  | succ k ih =>
    intro n b hb
    simp only [leBytes, List.mem_cons] at hb
    rcases hb with rfl | hb
    · exact Nat.mod_lt _ (by norm_num)
    · exact ih (n / 256) b hb

theorem leBytes_length (k : Nat) : ∀ n : Nat, (leBytes k n).length = k := by
  induction k with
  | zero => intro n; rfl
  | succ k ih =>
    intro n
    simp [leBytes, ih]

theorem fromLeBytes_leBytes (k : Nat) : ∀ n : Nat, n < 256 ^ k →
    fromLeBytes (leBytes k n) = n := by
  induction k with
  | zero =>
    intro n h
    simp only [pow_zero, Nat.lt_one_iff] at h
    simp [leBytes, fromLeBytes, h]
  | succ k ih =>
    intro n h
    have hdiv : n / 256 < 256 ^ k := by
      rw [Nat.div_lt_iff_lt_mul (by norm_num : 0 < 256)]
      rw [pow_succ] at h
      exact h
    simp only [leBytes, fromLeBytes, ih (n / 256) hdiv]
    omega

theorem fetch_serialize (m : inputBotInlineMessageID) (h1 : m.dc_id < 2 ^ 32)
    (h2 : m.id < 2 ^ 64) (h3 : m.access_hash < 2 ^ 64) :
    fetchInlineMessageID (serializeInlineMessageID m) = some m := by
  obtain ⟨d, i, ah⟩ := m
  simp only [serializeInlineMessageID] at h1 h2 h3 ⊢
  have lA : (leBytes 4 d).length = 4 := leBytes_length 4 d
  have lB : (leBytes 8 i).length = 8 := leBytes_length 8 i
  have lC : (leBytes 8 ah).length = 8 := leBytes_length 8 ah
  have hlen : (leBytes 4 d ++ leBytes 8 i ++ leBytes 8 ah).length = 20 := by
    simp [lA, lB, lC]
  rw [fetchInlineMessageID, if_pos hlen]
  have htake4 : (leBytes 4 d ++ leBytes 8 i ++ leBytes 8 ah).take 4 = leBytes 4 d := by
    rw [List.append_assoc]
    exact List.take_left' lA
  have hdrop4 : (leBytes 4 d ++ leBytes 8 i ++ leBytes 8 ah).drop 4 =
      leBytes 8 i ++ leBytes 8 ah := by
    rw [List.append_assoc]
    exact List.drop_left' lA
  have htake8 : (leBytes 8 i ++ leBytes 8 ah).take 8 = leBytes 8 i :=
    List.take_left' lB
  have hdrop12 : (leBytes 4 d ++ leBytes 8 i ++ leBytes 8 ah).drop 12 = leBytes 8 ah := by
    have l12 : (leBytes 4 d ++ leBytes 8 i).length = 12 := by simp [lA, lB]
    exact List.drop_left' l12
  rw [htake4, hdrop4, htake8, hdrop12]
  rw [fromLeBytes_leBytes 4 d (by norm_num at h1 ⊢; omega),
    fromLeBytes_leBytes 8 i (by norm_num at h2 ⊢; omega),
    fromLeBytes_leBytes 8 ah (by norm_num at h3 ⊢; omega)]

/-- C10: encoding an inline message id and decoding it back is the
identity for every object with in-range fields and a valid DC id; a
null object encodes to the empty string; and decoding returns null
whenever the base64url decode fails, the TL parse fails, or the DC id
is invalid. -/
theorem c10_inline_message_id_codec (is_valid_dc_id : Nat → Bool) :
    (get_inline_message_id none = []) ∧
    (∀ m : inputBotInlineMessageID, m.dc_id < 2 ^ 32 → m.id < 2 ^ 64 →
        m.access_hash < 2 ^ 64 → is_valid_dc_id m.dc_id = true →
        get_input_bot_inline_message_id is_valid_dc_id
          (get_inline_message_id (some m)) = some m) ∧
    (∀ s, base64url_decode s = none →
        get_input_bot_inline_message_id is_valid_dc_id s = none) ∧
    (∀ s bytes, base64url_decode s = some bytes → fetchInlineMessageID bytes = none →
        get_input_bot_inline_message_id is_valid_dc_id s = none) ∧
    (∀ s bytes m, base64url_decode s = some bytes → fetchInlineMessageID bytes = some m →
        is_valid_dc_id m.dc_id = false →
        get_input_bot_inline_message_id is_valid_dc_id s = none) := by
  refine ⟨rfl, ?_, ?_, ?_, ?_⟩
  · intro m h1 h2 h3 hv
    have hbytes : ∀ b ∈ serializeInlineMessageID m, b < 256 := by
      intro b hb
      simp only [serializeInlineMessageID, List.mem_append] at hb
      rcases hb with (hb | hb) | hb
      · exact leBytes_lt 4 m.dc_id b hb
      · exact leBytes_lt 8 m.id b hb
      · exact leBytes_lt 8 m.access_hash b hb
    rw [get_inline_message_id]
    simp only [get_input_bot_inline_message_id,
      base64url_decode_encode (serializeInlineMessageID m) hbytes,
      fetch_serialize m h1 h2 h3, hv, if_true]
  · intro s h
    simp only [get_input_bot_inline_message_id, h]
  · intro s bytes h1 h2
    simp only [get_input_bot_inline_message_id, h1, h2]
  · intro s bytes m h1 h2 hv
    simp only [get_input_bot_inline_message_id, h1, h2, hv, Bool.false_eq_true, if_false]
